/-
  Verification of the codelayers/codequery ingestion pipeline.

  This file gives a shallow embedding in Lean 4 of the parts of the
  repository's ingestion subsystem that the checked claims concern:

  * `src/codequery/ingestion/discovery.py`  — file discovery,
    classification, and `compute_module_path`;
  * `src/codelayers/ingestion/parser.py`    — the LibCST visitor
    (signature rendering, class/method attribution, body truncation);
  * `src/codelayers/ingestion/messages.py`  — message assembly with or
    without a Jedi enrichment;
  * `src/codelayers/ingestion/runner.py`    — the staged async
    orchestrator, embedded as a deterministic function of an environment
    record that stands for the filesystem, the parse/analysis results,
    the index collaborator, and the cancellation flag.

  Python strings that take part in path computations are modelled as
  `List Char` (named `Str` below) so that stems, suffixes and dotted
  joins can be reasoned about; strings that only flow into event or
  message payloads stay `String`.  Floating-point progress values are
  modelled as rationals, and numeric text formatting inside progress
  detail strings is abstracted to plain `toString` rendering (no claim
  depends on the precise formatting of those detail strings).
-/
import Mathlib

set_option maxRecDepth 2000

namespace CodeLayers

/-! ## Python path component model

`pathlib.PurePath` splits a path into components; `name` is the last
component, `suffix` is the last extension of `name` (empty when the
only dot is leading or trailing or absent), and `stem` is `name`
without `suffix`.  Components are modelled as lists of characters. -/

abbrev Str := List Char

/-- `pathlib` suffix of a filename: the part of the name from its last
dot onward, provided that dot is neither the first nor the last
character; otherwise the empty string. -/
def pySuffix (name : Str) : Str :=
  let tl := name.reverse.takeWhile (· ≠ '.')
  let rest := name.reverse.dropWhile (· ≠ '.')
  if rest = [] then []
  else if tl = [] then []
  else if rest.length = 1 then []
  else '.' :: tl.reverse

/-- `pathlib` stem of a filename: the name with its suffix removed. -/
def pyStem (name : Str) : Str :=
  name.take (name.length - (pySuffix name).length)

/-- Join components with a dot, as Python's `".".join`. -/
def dotJoin : List Str → Str
  | [] => []
  | [p] => p
  | p :: q :: rest => p ++ '.' :: dotJoin (q :: rest)

/-- The first element of `dropWhile` falsifies the predicate. -/
theorem dropWhile_head_false {p : Char → Bool} :
    ∀ (l : Str) (c : Str), l.dropWhile p = c → c ≠ [] → p (c.headD 'x') = false := by
  intro l
  induction l with
  | nil => intro c hc hne; rw [List.dropWhile_nil] at hc; exact absurd hc.symm hne
  | cons a as ih =>
      intro c hc hne
      rw [List.dropWhile_cons] at hc
      by_cases hpa : p a
      · rw [if_pos hpa] at hc; exact ih c hc hne
      · rw [if_neg hpa] at hc
        subst hc
        simpa using hpa

/-- A filename is its stem followed by its suffix. -/
theorem pyStem_append_pySuffix (name : Str) :
    pyStem name ++ pySuffix name = name := by
  unfold pyStem pySuffix
  set tl := name.reverse.takeWhile (· ≠ '.') with htl
  set rest := name.reverse.dropWhile (· ≠ '.') with hrest
  have hsplit : tl ++ rest = name.reverse := by
    rw [htl, hrest]; exact List.takeWhile_append_dropWhile _ _
  by_cases h1 : rest = []
  · simp [h1]
  · rw [if_neg h1]
    by_cases h2 : tl = []
    · simp [h2]
    · rw [if_neg h2]
      by_cases h3 : rest.length = 1
      · simp [h3]
      · rw [if_neg h3]
        -- rest is nonempty and its head is a dot
        have hhead : ((· ≠ '.') : Char → Bool) (rest.headD 'x') = false :=
          dropWhile_head_false name.reverse rest hrest.symm h1
        obtain ⟨r0, rs, hr⟩ := List.exists_cons_of_ne_nil h1
        have hr0 : r0 = '.' := by
          rw [hr] at hhead
          simpa using hhead
        -- name = rs.reverse ++ '.' :: tl.reverse
        have hname : name = rs.reverse ++ '.' :: tl.reverse := by
          have := congrArg List.reverse hsplit
          rw [List.reverse_reverse, List.reverse_append, hr, hr0] at this
          rw [← this]
          simp
        have hlen : ('.' :: tl.reverse).length = tl.length + 1 := by simp
        have hlen2 : name.length = rs.reverse.length + (tl.length + 1) := by
          rw [hname]; simp
        rw [hname]
        have : (rs.reverse ++ '.' :: tl.reverse).length - ('.' :: tl.reverse).length
            = rs.reverse.length := by simp
        simp only [List.length_append, hlen]
        have harith : rs.reverse.length + (tl.length + 1) - (tl.length + 1)
            = rs.reverse.length := by omega
        rw [harith, List.take_left]

/-- Filenames with equal stems and equal suffixes are equal. -/
theorem filename_eq_of_stem_suffix {n1 n2 : Str}
    (hs : pyStem n1 = pyStem n2) (hx : pySuffix n1 = pySuffix n2) : n1 = n2 := by
  have h1 := pyStem_append_pySuffix n1
  have h2 := pyStem_append_pySuffix n2
  rw [← h1, ← h2, hs, hx]

/-! ## `compute_module_path` (src/codequery/ingestion/discovery.py, lines 79-92)

A file path is represented by its root-relative component list (the
result of `file_path.relative_to(repo_path)`), the last component being
the filename. -/

/-- Embedding of `compute_module_path`: drop the filename, append its
stem unless it is `__init__`, join with dots, falling back to the stem
when no component remains. -/
def compute_module_path (rel : List Str) : Str :=
  let stem := pyStem (rel.getLastD [])
  let parts := rel.dropLast
  let parts := if stem = "__init__".toList then parts else parts ++ [stem]
  if parts = [] then stem else dotJoin parts

/-- Follows the claim's words for C5: the module path is the
root-relative path with the extension dropped and separators replaced
by dots, and for a package marker (stem `__init__`) the filename
segment is dropped entirely so the path names the enclosing directory,
including for a marker directly at the repository root. -/
def module_path_claimC5 (rel : List Str) : Str :=
  let stem := pyStem (rel.getLastD [])
  if stem = "__init__".toList then dotJoin rel.dropLast
  else dotJoin (rel.dropLast ++ [stem])

/-! ## File discovery (src/codequery/ingestion/discovery.py, lines 12-76)

`discover_files` walks `repo_path.rglob("*")`; the walk result is
modelled as the input list of filesystem entries (full component list
plus a file/directory flag), visited in order. -/

def DEFAULT_EXCLUDE_DIRS : List Str :=
  [".git", "__pycache__", ".venv", "venv", "node_modules", ".pytest_cache",
   ".mypy_cache", ".tox", "dist", "build", "env", ".eggs", "*.egg-info",
   ".ruff_cache", ".hypothesis"].map String.toList

def PYTHON_EXTS : List Str := [".py"].map String.toList

def DOC_EXTS : List Str := [".md", ".rst", ".txt"].map String.toList

def CONFIG_FILES : List Str :=
  ["pyproject.toml", "setup.py", "setup.cfg", "requirements.txt", "Pipfile",
   "poetry.lock", "tox.ini", "pytest.ini"].map String.toList

/-- One entry of the recursive directory walk. -/
structure FSEntry where
  parts : List Str
  isFile : Bool
deriving DecidableEq, Repr

/-- The classification chain of `discover_files` (lines 68-74): source
extension first, then documentation extension, then configuration
filename. -/
def classifyFile (parts : List Str) : Option String :=
  let name := parts.getLastD []
  if pySuffix name ∈ PYTHON_EXTS then some "python"
  else if pySuffix name ∈ DOC_EXTS then some "documentation"
  else if name ∈ CONFIG_FILES then some "configuration"
  else none

/-- Embedding of `discover_files`: skip entries with an excluded
component or that are not files, classify the rest. -/
def discover_files (entries : List FSEntry) (extra_excludes : List Str) :
    List (List Str × String) :=
  let excludes := DEFAULT_EXCLUDE_DIRS ++ extra_excludes
  entries.filterMap (fun e =>
    if excludes.any (fun ex => ex ∈ e.parts) then none
    else if ¬ e.isFile then none
    else (classifyFile e.parts).map (fun k => (e.parts, k)))

/-! ## Body truncation (src/codelayers/ingestion/parser.py, lines
133-136 and 223-226)

`code_for_node` output is capped at 10,000 characters with a marker
appended.  The body is a Python string, modelled as `Str`. -/

def TRUNCATION_MARKER : Str := "\n... (truncated)".toList

/-- Embedding of the truncation applied to `code_body` in both
`visit_ClassDef` and `visit_FunctionDef`. -/
def truncate_code_body (s : Str) : Str :=
  if s.length > 10000 then s.take 10000 ++ TRUNCATION_MARKER else s

/-! ## Signature parameter rendering (src/codelayers/ingestion/parser.py,
lines 174-196)

LibCST's `Parameters` node carries positional-only parameters,
ordinary positional parameters, a star section (`MaybeSentinel`, a bare
`ParamStar`, or a `Param` named `*args`), keyword-only parameters and a
`**kwargs` parameter.  Parameter names are plain strings here (the
visitor reads `p.name.value`). -/

/-- The `star_arg` field of a LibCST `Parameters` node. -/
inductive StarArg where
  | sentinel
  | paramStar
  | param (name : String)
deriving DecidableEq, Repr

structure Parameters where
  posonly_params : List String
  params : List String
  star_arg : StarArg
  kwonly_params : List String
  star_kwarg : Option String
deriving DecidableEq, Repr

/-- Embedding of the `params` list built in `visit_FunctionDef`:
ordinary positional parameters; a bare `*` followed by the keyword-only
parameters when there are any; then `*name` when `star_arg` is a
`Param` (the only case with a `name` attribute); then `**name`.
Positional-only parameters are never consulted. -/
def render_params (ps : Parameters) : List String :=
  let l1 := ps.params
  let l2 := if ps.kwonly_params = [] then l1 else l1 ++ "*" :: ps.kwonly_params
  let l3 := match ps.star_arg with
    | .param n => l2 ++ ["*" ++ n]
    | _ => l2
  match ps.star_kwarg with
  | some n => l3 ++ ["**" ++ n]
  | none => l3

/-- Follows the claim's words for C1: the parameter list in source
order — positional parameters first, the star section (`*name`, or a
bare `*` separator when a keyword-only group follows), the keyword-only
group, then `**name`. -/
def declared_params (ps : Parameters) : List String :=
  ps.posonly_params
  ++ ps.params
  ++ (match ps.star_arg with
      | .param n => ["*" ++ n]
      | .paramStar => ["*"]
      | .sentinel => [])
  ++ ps.kwonly_params
  ++ (match ps.star_kwarg with | some n => ["**" ++ n] | none => [])

/-! ## Class/method attribution (src/codelayers/ingestion/parser.py,
lines 104-251)

The visitor maintains `class_stack` (entries of `self.classes` still
being visited, innermost last) and `function_stack`.  `visit_ClassDef`
appends a fresh class record to both `self.classes` and the stack;
`visit_FunctionDef` appends the function to the innermost stacked
class's `methods` when the class stack is nonempty, otherwise to
`self.functions`, and pushes onto `function_stack`; the `leave_`
handlers pop.  For the attribution logic only the names and the nesting
structure of the tree matter, so statements are modelled by name and
body; all other statements are `other`. -/

inductive Stmt where
  | classDef (name : String) (body : List Stmt)
  | funcDef (name : String) (body : List Stmt)
  | other
deriving Repr

/-- A class record: name and method names in append order. -/
abbrev ClassRec := String × List String

/-- Extractor state: `classes` is `self.classes` in append order,
`class_stack` holds indices into `classes` (innermost last),
`function_stack` and `functions` are as in the source. -/
structure ExtSt where
  classes : List ClassRec
  class_stack : List Nat
  function_stack : List String
  functions : List String
deriving DecidableEq, Repr

/-- Replace the element at an index (identity when out of range). -/
def modifyIdx : List α → Nat → (α → α) → List α
  | [], _, _ => []
  | x :: xs, 0, f => f x :: xs
  | x :: xs, i + 1, f => x :: modifyIdx xs i f

/-- Embedding of the visitor walk over a statement list: `visit_` on a
node, recursive visit of its body, then `leave_`. -/
def visitStmts : List Stmt → ExtSt → ExtSt
  | [], σ => σ
  | .classDef n body :: rest, σ =>
      let idx := σ.classes.length
      let σ1 : ExtSt :=
        { σ with classes := σ.classes ++ [(n, [])],
                 class_stack := σ.class_stack ++ [idx] }
      let σ2 := visitStmts body σ1
      let σ3 : ExtSt := { σ2 with class_stack := σ2.class_stack.dropLast }
      visitStmts rest σ3
  | .funcDef f body :: rest, σ =>
      let σ1 : ExtSt :=
        match σ.class_stack.getLast? with
        | some idx =>
            { σ with classes := modifyIdx σ.classes idx
                       (fun c => (c.1, c.2 ++ [f])) }
        | none => { σ with functions := σ.functions ++ [f] }
      let σ2 := visitStmts body
        { σ1 with function_stack := σ1.function_stack ++ [f] }
      let σ3 : ExtSt := { σ2 with function_stack := σ2.function_stack.dropLast }
      visitStmts rest σ3
  | .other :: rest, σ => visitStmts rest σ

/-- Embedding of running `PythonExtractor` over a module body. -/
def pyExtract (prog : List Stmt) : ExtSt :=
  visitStmts prog ⟨[], [], [], []⟩

/-- Follows the claim's words for C2: the function definitions
lexically nested *directly* inside a class body (one level only). -/
def directMethods : List Stmt → List String
  | [] => []
  | .funcDef f _ :: rest => f :: directMethods rest
  | .classDef _ _ :: rest => directMethods rest
  | .other :: rest => directMethods rest

/-- Methods the visitor attributes to the class whose body this is:
every function definition reached without crossing an inner class
definition, in visit (pre-)order, including functions nested inside
such functions. -/
def methodsUnder : List Stmt → List String
  | [] => []
  | .funcDef f body :: rest => f :: (methodsUnder body ++ methodsUnder rest)
  | .classDef _ _ :: rest => methodsUnder rest
  | .other :: rest => methodsUnder rest

/-- All class records produced under a statement list, in visit
(pre-)order, each with the methods of `methodsUnder` of its body. -/
def classesUnder : List Stmt → List ClassRec
  | [] => []
  | .classDef n body :: rest =>
      (n, methodsUnder body) :: (classesUnder body ++ classesUnder rest)
  | .funcDef _ body :: rest => classesUnder body ++ classesUnder rest
  | .other :: rest => classesUnder rest

/-- Top-level functions the visitor collects when the class stack is
empty: function definitions reached without crossing a class
definition, including nested ones. -/
def funcsUnder : List Stmt → List String
  | [] => []
  | .funcDef f body :: rest => f :: (funcsUnder body ++ funcsUnder rest)
  | .classDef _ _ :: rest => funcsUnder rest
  | .other :: rest => funcsUnder rest

theorem modifyIdx_length (l : List α) (i : Nat) (f : α → α) :
    (modifyIdx l i f).length = l.length := by
  induction l generalizing i with
  | nil => rfl
  | cons x xs ih =>
      cases i with
      | zero => rfl
      | succ j => simpa [modifyIdx] using ih j

theorem modifyIdx_append_left (l t : List α) (i : Nat) (f : α → α)
    (h : i < l.length) : modifyIdx (l ++ t) i f = modifyIdx l i f ++ t := by
  induction l generalizing i with
  | nil => simp at h
  | cons x xs ih =>
      cases i with
      | zero => rfl
      | succ j =>
          have hj : j < xs.length := by simpa using h
          simp [modifyIdx, ih j hj]

theorem modifyIdx_comp (l : List α) (i : Nat) (f g : α → α) :
    modifyIdx (modifyIdx l i f) i g = modifyIdx l i (fun a => g (f a)) := by
  induction l generalizing i with
  | nil => rfl
  | cons x xs ih =>
      cases i with
      | zero => rfl
      | succ j => simp [modifyIdx, ih j]

theorem modifyIdx_last (l : List α) (a : α) (f : α → α) :
    modifyIdx (l ++ [a]) l.length f = l ++ [f a] := by
  induction l with
  | nil => rfl
  | cons x xs ih => simp [modifyIdx, ih]

theorem modifyIdx_id (l : List α) (i : Nat) (f : α → α)
    (h : ∀ a, f a = a) : modifyIdx l i f = l := by
  induction l generalizing i with
  | nil => rfl
  | cons x xs ih =>
      cases i with
      | zero => simp [modifyIdx, h]
      | succ j => simp [modifyIdx, ih j]

/-- Characterization of the visitor walk: the class stack and function
stack return to their entry values; the class on the stack's top
receives exactly `methodsUnder` of the walked statements; new classes
are the `classesUnder` records, appended in visit order; with an empty
class stack the walked top-level functions are `funcsUnder`. -/
theorem visitStmts_spec : ∀ (l : List Stmt) (σ : ExtSt),
    (∀ i ∈ σ.class_stack, i < σ.classes.length) →
    visitStmts l σ =
      { classes :=
          (match σ.class_stack.getLast? with
           | some i => modifyIdx σ.classes i (fun c => (c.1, c.2 ++ methodsUnder l))
           | none => σ.classes) ++ classesUnder l,
        class_stack := σ.class_stack,
        function_stack := σ.function_stack,
        functions := σ.functions ++
          (match σ.class_stack.getLast? with
           | some _ => []
           | none => funcsUnder l) }
  | [], σ, h => by
      cases hS : σ.class_stack.getLast? with
      | none =>
          simp [visitStmts, methodsUnder, classesUnder, funcsUnder, hS]
      | some i =>
          have hid : modifyIdx σ.classes i (fun c => (c.1, c.2 ++ methodsUnder [])) =
              σ.classes := by
            apply modifyIdx_id
            intro a
            simp [methodsUnder]
          simp [visitStmts, classesUnder, hS, hid]
  | .classDef n body :: rest, σ, h => by
      have h1 : ∀ i ∈ σ.class_stack ++ [σ.classes.length],
          i < (σ.classes ++ [((n : String), ([] : List String))]).length := by
        intro i hi
        simp only [List.mem_append, List.mem_singleton] at hi
        rcases hi with hi | rfl
        · have := h i hi; simp; omega
        · simp
      have ih1 := visitStmts_spec body
        ⟨σ.classes ++ [(n, [])], σ.class_stack ++ [σ.classes.length],
         σ.function_stack, σ.functions⟩ h1
      simp only [List.getLast?_concat, modifyIdx_last, List.nil_append,
        List.append_nil] at ih1
      have h3 : ∀ i ∈ σ.class_stack,
          i < ((σ.classes ++ [((n : String), methodsUnder body)]) ++
               classesUnder body).length := by
        intro i hi
        have := h i hi
        simp
        omega
      have ih2 := visitStmts_spec rest
        ⟨(σ.classes ++ [(n, methodsUnder body)]) ++ classesUnder body,
         σ.class_stack, σ.function_stack, σ.functions⟩ h3
      simp only [visitStmts]
      rw [ih1]
      dsimp only
      simp only [List.dropLast_concat]
      rw [ih2]
      cases hS : σ.class_stack.getLast? with
      | none =>
          simp [methodsUnder, classesUnder, funcsUnder]
      | some i =>
          have hiL : i < σ.classes.length := h i (List.mem_of_getLast?_eq_some hS)
          simp only
          rw [modifyIdx_append_left _ _ _ _
                (by simp; omega : i < (σ.classes ++ [((n : String), methodsUnder body)]).length),
              modifyIdx_append_left _ _ _ _ hiL]
          simp [methodsUnder, classesUnder]
  | .funcDef f body :: rest, σ, h => by
      simp only [visitStmts]
      cases hS : σ.class_stack.getLast? with
      | none =>
          have ih1 := visitStmts_spec body
            ⟨σ.classes, σ.class_stack, σ.function_stack ++ [f],
             σ.functions ++ [f]⟩ h
          simp only [hS] at ih1
          rw [ih1]
          dsimp only
          simp only [List.dropLast_concat]
          have h3 : ∀ i ∈ σ.class_stack,
              i < (σ.classes ++ classesUnder body).length := by
            intro i hi
            have := h i hi
            simp
            omega
          have ih2 := visitStmts_spec rest
            ⟨σ.classes ++ classesUnder body, σ.class_stack, σ.function_stack,
             (σ.functions ++ [f]) ++ funcsUnder body⟩ h3
          simp only [hS] at ih2
          rw [ih2]
          simp [methodsUnder, classesUnder, funcsUnder]
      | some i =>
          have h1 : ∀ j ∈ σ.class_stack,
              j < (modifyIdx σ.classes i (fun c => (c.1, c.2 ++ [f]))).length := by
            intro j hj
            rw [modifyIdx_length]
            exact h j hj
          have ih1 := visitStmts_spec body
            ⟨modifyIdx σ.classes i (fun c => (c.1, c.2 ++ [f])), σ.class_stack,
             σ.function_stack ++ [f], σ.functions⟩ h1
          simp only [hS] at ih1
          rw [ih1]
          dsimp only
          simp only [List.dropLast_concat, List.append_nil]
          have h3 : ∀ j ∈ σ.class_stack,
              j < (modifyIdx (modifyIdx σ.classes i (fun c => (c.1, c.2 ++ [f]))) i
                     (fun c => (c.1, c.2 ++ methodsUnder body)) ++
                   classesUnder body).length := by
            intro j hj
            rw [List.length_append, modifyIdx_length, modifyIdx_length]
            have := h j hj
            omega
          have ih2 := visitStmts_spec rest
            ⟨modifyIdx (modifyIdx σ.classes i (fun c => (c.1, c.2 ++ [f]))) i
               (fun c => (c.1, c.2 ++ methodsUnder body)) ++ classesUnder body,
             σ.class_stack, σ.function_stack, σ.functions⟩ h3
          simp only [hS] at ih2
          rw [ih2]
          have hiL : i < σ.classes.length := h i (List.mem_of_getLast?_eq_some hS)
          rw [modifyIdx_append_left _ _ _ _
                (by rw [modifyIdx_length, modifyIdx_length]; exact hiL),
              modifyIdx_comp, modifyIdx_comp]
          simp [methodsUnder, classesUnder, funcsUnder]
  | .other :: rest, σ, h => by
      simp only [visitStmts]
      rw [visitStmts_spec rest σ h]
      simp [methodsUnder, classesUnder, funcsUnder]
termination_by l => sizeOf l

/-! ## Parsed entities and Jedi analysis data
(src/codequery/ingestion/models.py, src/codequery/ingestion/jedi_analyzer.py)

Entity dictionaries built by the parser and consumed by message
creation.  A Jedi `type_annotations` record is modelled by the two
fields message creation reads (`declared_type`, `inferred_types`);
`references` maps a symbol key to its reference-site list (message
creation reads only its length); `definitions` is carried but never
read by message creation. -/

structure TypeData where
  declared_type : Option String
  inferred_types : List String
deriving DecidableEq, Repr

structure JediAnalysis where
  type_annotations : List (String × TypeData)
  references : List (String × List (Nat × Nat × String))
  definitions : List (String × String)
deriving DecidableEq, Repr

structure FuncEnt where
  name : String
  docstring : String
  signature : String
  decorators : List String
  parameters : List String
  return_annotation : Option String
  code_body : String
deriving DecidableEq, Repr

structure ClassEnt where
  name : String
  docstring : String
  bases : List String
  decorators : List String
  methods : List FuncEnt
  code_body : String
deriving DecidableEq, Repr

structure ParsedPython where
  file_path : String
  module_path : String
  module_docstring : String
  imports : List String
  classes : List ClassEnt
  functions : List FuncEnt
  source_code : String
deriving DecidableEq, Repr

/-- A `CodeMessage` as built by message creation: the ordered text
chunks, the metadata speaker, and the tags. -/
structure CodeMessage where
  text_chunks : List String
  speaker : String
  tags : List String
deriving DecidableEq, Repr

/-! ## Message creation (src/codelayers/ingestion/messages.py)

`create_entity_messages_with_jedi` (lines 99-267) replaces a missing
analysis by an object with empty containers (lines 117-123) and then
builds one message per class, per method and per top-level function.
Python string truthiness is the `≠ ""` test; `strip` is `String.trim`. -/

def emptyJediAnalysis : JediAnalysis := ⟨[], [], []⟩

/-- The class message of lines 126-173. -/
def classMessage (parsed : ParsedPython) (j : JediAnalysis) (cls : ClassEnt) :
    CodeMessage :=
  let cls_key := parsed.module_path ++ "." ++ cls.name
  let bits : List String :=
    if cls.docstring ≠ "" ∧ cls.docstring.trim ≠ "" then [cls.docstring.trim] else []
  let bits := bits ++
    (match j.type_annotations.lookup cls_key with
     | some td =>
         let inferred := td.inferred_types.filter (· ≠ "")
         if inferred ≠ [] then ["Type hints: " ++ String.intercalate ", " inferred]
         else []
     | none => [])
  let bits := bits ++
    (match j.references.lookup cls_key with
     | some refs => ["Referenced " ++ toString refs.length ++ " time(s) in codebase"]
     | none => [])
  let bits := bits ++
    (if cls.decorators ≠ [] then
       ["Decorators: " ++ String.intercalate ", " (cls.decorators.filter (· ≠ ""))]
     else [])
  let summary0 := String.intercalate "\n\n" (bits.filter (· ≠ ""))
  let summary :=
    if summary0 = "" then "Class " ++ cls.name ++ " summary unavailable." else summary0
  let bases_str :=
    if cls.bases ≠ [] then "(" ++ String.intercalate ", " cls.bases ++ ")" else ""
  let signature0 := ("class " ++ cls.name ++ bases_str).trim
  let signature := if signature0 = "" then "class " ++ cls.name else signature0
  let code :=
    if cls.code_body.trim = "" then "class " ++ cls.name ++ " body unavailable."
    else cls.code_body
  ⟨[summary, signature, code], parsed.module_path ++ ":" ++ cls.name,
   ["class", "python", cls.name, parsed.module_path]⟩

/-- The method message of lines 176-217.  The `method_key` computed at
line 181 is never used afterwards; parameter lookups use the local
`"<function>.<param>"` key. -/
def methodMessage (parsed : ParsedPython) (j : JediAnalysis) (cls : ClassEnt)
    (method : FuncEnt) : CodeMessage :=
  let bits : List String :=
    if method.docstring ≠ "" ∧ method.docstring.trim ≠ "" then [method.docstring.trim]
    else []
  let param_info := method.parameters.filterMap (fun param =>
    match j.type_annotations.lookup (method.name ++ "." ++ param) with
    | some td =>
        let inferred := td.inferred_types.filter (· ≠ "")
        if inferred ≠ [] then some (param ++ ": " ++ String.intercalate ", " inferred)
        else none
    | none => none)
  let bits := bits ++
    (if param_info ≠ [] then
       ["Inferred parameter types:\n" ++ String.intercalate "\n" param_info]
     else [])
  let summary0 := String.intercalate "\n\n" (bits.filter (· ≠ ""))
  let summary :=
    if summary0 = "" then "Method " ++ method.name ++ " summary unavailable."
    else summary0
  let signature := if method.signature.trim ≠ "" then method.signature.trim
    else method.name
  let code :=
    if method.code_body.trim = "" then "Method " ++ method.name ++ " body unavailable."
    else method.code_body
  ⟨[summary, signature, code],
   parsed.module_path ++ ":" ++ cls.name ++ "." ++ method.name,
   ["method", "python", method.name, cls.name]⟩

/-- The top-level function message of lines 220-265. -/
def functionMessage (parsed : ParsedPython) (j : JediAnalysis) (func : FuncEnt) :
    CodeMessage :=
  let bits : List String :=
    if func.docstring ≠ "" ∧ func.docstring.trim ≠ "" then [func.docstring.trim] else []
  let param_info := func.parameters.filterMap (fun param =>
    match j.type_annotations.lookup (func.name ++ "." ++ param) with
    | some td =>
        let inferred := td.inferred_types.filter (· ≠ "")
        if inferred ≠ [] then some (param ++ ": " ++ String.intercalate ", " inferred)
        else none
    | none => none)
  let bits := bits ++
    (if param_info ≠ [] then
       ["Inferred parameter types:\n" ++ String.intercalate "\n" param_info]
     else [])
  let bits := bits ++
    (match j.type_annotations.lookup (func.name ++ ".__return__") with
     | some td =>
         match td.declared_type with
         | some dt => if dt ≠ "" then ["Return type: " ++ dt] else []
         | none => []
     | none => [])
  let summary0 := String.intercalate "\n\n" (bits.filter (· ≠ ""))
  let summary :=
    if summary0 = "" then "Function " ++ func.name ++ " summary unavailable."
    else summary0
  let signature := if func.signature.trim ≠ "" then func.signature.trim else func.name
  let code :=
    if func.code_body.trim = "" then "Function " ++ func.name ++ " body unavailable."
    else func.code_body
  ⟨[summary, signature, code], parsed.module_path ++ ":" ++ func.name,
   ["function", "python", func.name, parsed.module_path]⟩

/-- Embedding of `create_entity_messages_with_jedi`: a missing analysis
becomes empty containers, then for each class its message followed by
its method messages, then the top-level function messages.  The
`project_name` argument is accepted and never read, as in the source. -/
def create_entity_messages_with_jedi (parsed : ParsedPython)
    (jedi_analysis : Option JediAnalysis) (project_name : Option String) :
    List CodeMessage :=
  let j := jedi_analysis.getD emptyJediAnalysis
  (parsed.classes.map (fun cls =>
      classMessage parsed j cls :: cls.methods.map (methodMessage parsed j cls))).flatten
  ++ parsed.functions.map (functionMessage parsed j)

/-! ## Syntactic-only chunk assembly (claim C9's wording)

The chunks a class, method or function yields when no enrichment
exists: summaries from docstrings (and decorators for classes) only,
with the placeholder fallbacks; signature; body. -/

/-- Follows the claim's words for C9 (class chunk from syntax alone). -/
def classChunkSyntactic (parsed : ParsedPython) (cls : ClassEnt) : CodeMessage :=
  let bits : List String :=
    (if cls.docstring ≠ "" ∧ cls.docstring.trim ≠ "" then [cls.docstring.trim] else [])
    ++ (if cls.decorators ≠ [] then
          ["Decorators: " ++ String.intercalate ", " (cls.decorators.filter (· ≠ ""))]
        else [])
  let summary0 := String.intercalate "\n\n" (bits.filter (· ≠ ""))
  let summary :=
    if summary0 = "" then "Class " ++ cls.name ++ " summary unavailable." else summary0
  let bases_str :=
    if cls.bases ≠ [] then "(" ++ String.intercalate ", " cls.bases ++ ")" else ""
  let signature0 := ("class " ++ cls.name ++ bases_str).trim
  let signature := if signature0 = "" then "class " ++ cls.name else signature0
  let code :=
    if cls.code_body.trim = "" then "class " ++ cls.name ++ " body unavailable."
    else cls.code_body
  ⟨[summary, signature, code], parsed.module_path ++ ":" ++ cls.name,
   ["class", "python", cls.name, parsed.module_path]⟩

/-- Follows the claim's words for C9 (method chunk from syntax alone). -/
def methodChunkSyntactic (parsed : ParsedPython) (cls : ClassEnt)
    (method : FuncEnt) : CodeMessage :=
  let bits : List String :=
    if method.docstring ≠ "" ∧ method.docstring.trim ≠ "" then [method.docstring.trim]
    else []
  let summary0 := String.intercalate "\n\n" (bits.filter (· ≠ ""))
  let summary :=
    if summary0 = "" then "Method " ++ method.name ++ " summary unavailable."
    else summary0
  let signature := if method.signature.trim ≠ "" then method.signature.trim
    else method.name
  let code :=
    if method.code_body.trim = "" then "Method " ++ method.name ++ " body unavailable."
    else method.code_body
  ⟨[summary, signature, code],
   parsed.module_path ++ ":" ++ cls.name ++ "." ++ method.name,
   ["method", "python", method.name, cls.name]⟩

/-- Follows the claim's words for C9 (function chunk from syntax alone). -/
def functionChunkSyntactic (parsed : ParsedPython) (func : FuncEnt) : CodeMessage :=
  let bits : List String :=
    if func.docstring ≠ "" ∧ func.docstring.trim ≠ "" then [func.docstring.trim] else []
  let summary0 := String.intercalate "\n\n" (bits.filter (· ≠ ""))
  let summary :=
    if summary0 = "" then "Function " ++ func.name ++ " summary unavailable."
    else summary0
  let signature := if func.signature.trim ≠ "" then func.signature.trim else func.name
  let code :=
    if func.code_body.trim = "" then "Function " ++ func.name ++ " body unavailable."
    else func.code_body
  ⟨[summary, signature, code], parsed.module_path ++ ":" ++ func.name,
   ["function", "python", func.name, parsed.module_path]⟩

/-- Follows the claim's words for C9: the full per-entity chunk list
built from syntactic information alone, in the same class → methods →
functions order. -/
def entity_messages_syntactic (parsed : ParsedPython) : List CodeMessage :=
  (parsed.classes.map (fun cls =>
      classChunkSyntactic parsed cls ::
        cls.methods.map (methodChunkSyntactic parsed cls))).flatten
  ++ parsed.functions.map (functionChunkSyntactic parsed)

theorem classMessage_empty (parsed : ParsedPython) (cls : ClassEnt) :
    classMessage parsed emptyJediAnalysis cls = classChunkSyntactic parsed cls := by
  simp [classMessage, classChunkSyntactic, emptyJediAnalysis]

theorem methodMessage_empty (parsed : ParsedPython) (cls : ClassEnt)
    (method : FuncEnt) :
    methodMessage parsed emptyJediAnalysis cls method =
      methodChunkSyntactic parsed cls method := by
  simp [methodMessage, methodChunkSyntactic, emptyJediAnalysis]

theorem functionMessage_empty (parsed : ParsedPython) (func : FuncEnt) :
    functionMessage parsed emptyJediAnalysis func =
      functionChunkSyntactic parsed func := by
  simp [functionMessage, functionChunkSyntactic, emptyJediAnalysis]

/-! ## Module message creation (src/codelayers/ingestion/messages.py,
lines 23-66) -/

/-- Embedding of `create_module_message`. -/
def create_module_message (parsed : ParsedPython) (project_name : Option String) :
    CodeMessage :=
  let summary :=
    if parsed.module_docstring ≠ "" then
      "Module docstring:\n" ++ parsed.module_docstring.trim
    else "Module docstring: (none provided)"
  let detail_sections : List String :=
    if parsed.imports ≠ [] then
      ["Imports:\n" ++ String.intercalate "\n" parsed.imports]
    else []
  let class_names := parsed.classes.map (·.name)
  let func_names := parsed.functions.map (·.name)
  let overview_parts : List String :=
    (if class_names ≠ [] then ["Classes: " ++ String.intercalate ", " class_names]
     else [])
    ++ (if func_names ≠ [] then ["Functions: " ++ String.intercalate ", " func_names]
        else [])
  let detail_sections := detail_sections ++
    (if overview_parts ≠ [] then
       ["Overview:\n" ++ String.intercalate "\n" overview_parts]
     else [])
  let detail0 := String.intercalate "\n\n"
    (detail_sections.filter (fun s => s.trim ≠ ""))
  let detail :=
    if detail0 = "" then "No imports or symbol overview available." else detail0
  let code1 :=
    if parsed.source_code ≠ "" ∧ parsed.source_code.length > 50000 then
      parsed.source_code.take 50000 ++ "\n... (truncated)"
    else parsed.source_code
  let code := if code1.trim = "" then "Module source unavailable." else code1
  ⟨[summary, detail, code],
   (if parsed.module_path ≠ "" then parsed.module_path else parsed.file_path),
   ["module", "python", project_name.getD ""]⟩

/-! ## The pipeline orchestrator (src/codelayers/ingestion/runner.py)

`run_ingestion` is an async generator; it is embedded as a
deterministic function of an environment record standing for every
external effect: the filesystem walk (`discover`, which can raise),
per-file parse and Jedi results (both internally catch all exceptions
and return `none` on failure, so they cannot raise), text-file reading,
the index collaborator (`create_conv` and `add_batch`, both of which
can raise), and the cancellation flag.  `asyncio.Event.is_set` readings
are monotone, so the flag is modelled by the index of the first check
that observes it set.  The yielded event stream is accumulated in
order, together with the number of cancellation checks performed and
the number of `add_messages_with_indexing` calls issued. -/

structure StageState where
  status : String
  progress : ℚ
  detail : String
deriving DecidableEq, Repr

structure IngestResultL where
  files_processed : Nat
  messages_created : Nat
  symbols_indexed : Nat
  semrefs_added : Nat
  duration : ℚ
  db_path : String
  failures : List (String × String)
deriving DecidableEq, Repr

inductive RunEvent where
  | progress (stage : String) (state : StageState)
  | complete (result : IngestResultL) (summary : String)
  | error (error : String) (stage : String)
deriving DecidableEq, Repr

/-- `true` exactly for `IngestionError` events. -/
def RunEvent.isErr : RunEvent → Bool
  | .error _ _ => true
  | _ => false

/-- The event belongs to the given pipeline stage. -/
def eventInStage : RunEvent → String → Prop
  | .progress s _, t => s = t
  | .error _ s, t => s = t
  | .complete _ _, _ => False

instance (ev : RunEvent) (t : String) : Decidable (eventInStage ev t) := by
  cases ev <;> simp [eventInStage] <;> infer_instance

structure RunnerEnv where
  repo_exists : Bool
  repo_path_str : String
  repo_name : String
  discover : Except String (List (List Str × String))
  parse : List Str → Option ParsedPython
  jedi : List Str → Option JediAnalysis
  text_message : List Str → Option CodeMessage
  create_conv : Except String Unit
  add_batch : Nat → Except String (Nat × Nat)
  cancel_at : Option Nat
  output_db : Option String
  duration : ℚ

/-- The value the k-th `cancel_event.is_set()` call observes. -/
def cancelSet (env : RunnerEnv) (k : Nat) : Bool :=
  match env.cancel_at with
  | none => false
  | some c => c ≤ k

/-- Orchestrator bookkeeping: events yielded so far, cancellation
checks performed, `add_messages_with_indexing` calls issued. -/
structure RunSt where
  events : List RunEvent
  checks : Nat
  batch_calls : Nat
deriving DecidableEq, Repr

def emit (st : RunSt) (ev : RunEvent) : RunSt :=
  { st with events := st.events ++ [ev] }

def checkCancel (env : RunnerEnv) (st : RunSt) : RunSt × Bool :=
  ({ st with checks := st.checks + 1 }, cancelSet env st.checks)

/-- `str(path)` for a component-list path (separator rendering is
immaterial to the claims). -/
def pathString (p : List Str) : String :=
  (List.intercalate ['/'] p).asString

/-- `defaultdict(int)` kind counting, preserving first-occurrence
order (lines 96-98). -/
def bumpKind : List (String × Nat) → String → List (String × Nat)
  | [], k => [(k, 1)]
  | (k', n) :: rest, k =>
      if k' = k then (k', n + 1) :: rest else (k', n) :: bumpKind rest k

def kindCounts (files : List (List Str × String)) : List (String × Nat) :=
  files.foldl (fun acc f => bumpKind acc f.2) []

def typeStr (counts : List (String × Nat)) : String :=
  String.intercalate ", " (counts.map (fun kv => kv.1 ++ ": " ++ toString kv.2))

/-- The parse-result loop of lines 125-144: per-item cancellation
check, accumulation of successes and failures, periodic progress.
Returns the updated state, `all_parsed`, `failures`, and whether the
loop observed cancellation. -/
def parseLoop (env : RunnerEnv) (total : Nat) :
    List (List Str × Option ParsedPython) → Nat →
    List (List Str × ParsedPython) → List (String × String) → RunSt →
    RunSt × List (List Str × ParsedPython) × List (String × String) × Bool
  | [], _, parsed, fails, st => (st, parsed, fails, false)
  | (p, r) :: rest, i, parsed, fails, st =>
      let sc := checkCancel env st
      if sc.2 then (sc.1, parsed, fails, true)
      else
        let acc : List (List Str × ParsedPython) × List (String × String) :=
          match r with
          | some pr => (parsed ++ [(p, pr)], fails)
          | none => (parsed, fails ++ [(pathString p, "Parse failed")])
        let st2 :=
          if (i + 1) % 50 = 0 ∨ i = total - 1 then
            emit sc.1 (.progress "parsing"
              ⟨"active", ((i + 1 : Nat) : ℚ) / (total : ℚ) * 100,
               "⚙️ Processing: " ++ toString (i + 1) ++ "/" ++ toString total ++
                 " Python files"⟩)
          else sc.1
        parseLoop env total rest (i + 1) acc.1 acc.2 st2

/-- The Jedi-analysis loop of lines 165-181. -/
def jediLoop (env : RunnerEnv) (total : Nat) :
    List (List Str × ParsedPython) → Nat → List (Option JediAnalysis) → RunSt →
    RunSt × List (Option JediAnalysis) × Bool
  | [], _, acc, st => (st, acc, false)
  | (p, _) :: rest, i, acc, st =>
      let sc := checkCancel env st
      if sc.2 then (sc.1, acc, true)
      else
        let st2 :=
          if (i + 1) % 25 = 0 ∨ i = total - 1 then
            emit sc.1 (.progress "type_analysis"
              ⟨"active", ((i + 1 : Nat) : ℚ) / (total : ℚ) * 100,
               "⚙️ Analyzing: " ++ toString (i + 1) ++ "/" ++ toString total ++
                 " files"⟩)
          else sc.1
        jediLoop env total rest (i + 1) (acc ++ [env.jedi p]) st2

/-- The Python-file message-creation loop of lines 207-238. -/
def msgLoop (env : RunnerEnv) (project : Option String)
    (nparsed total_items : Nat) :
    List ((List Str × ParsedPython) × Option JediAnalysis) → Nat →
    List CodeMessage → RunSt → RunSt × List CodeMessage × Nat × Bool
  | [], processed, msgs, st => (st, msgs, processed, false)
  | (pp, ja) :: rest, processed, msgs, st =>
      let sc := checkCancel env st
      if sc.2 then (sc.1, msgs, processed, true)
      else
        let module_message := create_module_message pp.2 project
        let msgs1 :=
          if module_message.text_chunks ≠ [] then msgs ++ [module_message] else msgs
        let entity_msgs := create_entity_messages_with_jedi pp.2 ja project
        let msgs2 := msgs1 ++ entity_msgs.filter (fun m => m.text_chunks ≠ [])
        let st2 :=
          if (processed + 1) % 25 = 0 ∨ processed + 1 = nparsed then
            emit sc.1 (.progress "message_creation"
              ⟨"active", ((processed + 1 : Nat) : ℚ) / (total_items : ℚ) * 100,
               "⚙️ Processing: " ++ toString (processed + 1) ++ "/" ++
                 toString total_items ++ " files - " ++ toString msgs2.length ++
                 " messages created"⟩)
          else sc.1
        msgLoop env project nparsed total_items rest (processed + 1) msgs2 st2

/-- The text-file loop of lines 241-249. -/
def textLoop (env : RunnerEnv) :
    List (List Str × String) → Nat → List CodeMessage → RunSt →
    RunSt × List CodeMessage × Nat × Bool
  | [], processed, msgs, st => (st, msgs, processed, false)
  | (p, kind) :: rest, processed, msgs, st =>
      let sc := checkCancel env st
      if sc.2 then (sc.1, msgs, processed, true)
      else
        let acc : List CodeMessage × Nat :=
          if kind = "documentation" ∨ kind = "configuration" then
            (match env.text_message p with
             | some m => if m.text_chunks ≠ [] then msgs ++ [m] else msgs
             | none => msgs,
             processed + 1)
          else (msgs, processed)
        textLoop env rest acc.2 acc.1 sc.1

/-- Batches of fifty messages, as `range(0, len(all_messages), 50)`
slices (`batch_size = 50`, line 286). -/
def chunks50 : List α → List (List α)
  | [] => []
  | x :: xs => (x :: xs).take 50 :: chunks50 ((x :: xs).drop 50)
termination_by l => l.length
decreasing_by simp; omega

/-- The indexing batch loop of lines 291-320.  Returns the state, the
accumulated `semrefs_added` and `messages_added_total`, a pending
exception from `add_messages_with_indexing`, and the cancellation
flag. -/
def batchLoop (env : RunnerEnv) (total_batches : Nat) :
    List (List CodeMessage) → Nat → Nat → Nat → RunSt →
    RunSt × Nat × Nat × Option String × Bool
  | [], _, semrefs, msgs_total, st => (st, semrefs, msgs_total, none, false)
  | batch :: rest, batch_num, semrefs, msgs_total, st =>
      let sc := checkCancel env st
      if sc.2 then (sc.1, semrefs, msgs_total, none, true)
      else
        let st2 := emit sc.1 (.progress "indexing"
          ⟨"active", ((batch_num - 1 : Nat) : ℚ) / (total_batches : ℚ) * 100,
           "⚙️ Batch " ++ toString batch_num ++ "/" ++ toString total_batches ++
             ": Processing " ++ toString batch.length ++
             " messages - Extracting knowledge..."⟩)
        let st3 : RunSt := { st2 with batch_calls := st2.batch_calls + 1 }
        match env.add_batch batch_num with
        | .error e => (st3, semrefs, msgs_total, some e, false)
        | .ok res =>
            let semrefs2 := semrefs + res.1
            let msgs_total2 := msgs_total + res.2
            let st4 := emit st3 (.progress "indexing"
              ⟨"active", ((batch_num : Nat) : ℚ) / (total_batches : ℚ) * 100,
               "✓ Batch " ++ toString batch_num ++ "/" ++ toString total_batches ++
                 " done | Total: " ++ toString msgs_total2 ++ " messages, " ++
                 toString semrefs2 ++ " refs"⟩)
            batchLoop env total_batches rest (batch_num + 1) semrefs2 msgs_total2 st4

/-- The type-analysis stage (lines 151-190), skipped entirely when no
file parsed successfully. -/
def phaseTypeAnalysis (env : RunnerEnv)
    (all_parsed : List (List Str × ParsedPython)) (st : RunSt) :
    RunSt × List (Option JediAnalysis) × Bool :=
  if all_parsed = [] then (st, [], false)
  else
    let sc := checkCancel env st
    if sc.2 then (sc.1, [], true)
    else
      let st1 := emit sc.1 (.progress "type_analysis"
        ⟨"active", 0, "Starting Jedi type analysis..."⟩)
      let out := jediLoop env all_parsed.length all_parsed 0 [] st1
      if out.2.2 then (out.1, out.2.1, true)
      else
        let st2 := emit out.1 (.progress "type_analysis"
          ⟨"complete", 100,
           "✓ Analyzed " ++ toString (out.2.1.filter (·.isSome)).length ++
             " files with Jedi"⟩)
        (st2, out.2.1, false)

/-- The message-creation stage (lines 192-258). -/
def phaseMessages (env : RunnerEnv) (project : Option String)
    (files : List (List Str × String))
    (all_parsed : List (List Str × ParsedPython))
    (analyses : List (Option JediAnalysis)) (st : RunSt) :
    RunSt × List CodeMessage × Bool :=
  let sc := checkCancel env st
  if sc.2 then (sc.1, [], true)
  else
    let st1 := emit sc.1 (.progress "message_creation"
      ⟨"active", 0, "Creating messages from parsed code..."⟩)
    let total_items := all_parsed.length +
      (files.filter (fun f => f.2 = "documentation" ∨ f.2 = "configuration")).length
    let out := msgLoop env project all_parsed.length total_items
      (all_parsed.zip analyses) 0 [] st1
    if out.2.2.2 then (out.1, out.2.1, true)
    else
      let out2 := textLoop env files out.2.2.1 out.2.1 out.1
      if out2.2.2.2 then (out2.1, out2.2.1, true)
      else
        let st2 := emit out2.1 (.progress "message_creation"
          ⟨"complete", 100,
           "✓ Created " ++ toString out2.2.1.length ++ " messages from " ++
             toString total_items ++ " files"⟩)
        (st2, out2.2.1, false)

/-- The indexing stage (lines 260-324): cancellation check, conversation
creation (which can raise), then the batch loop. -/
def phaseIndexing (env : RunnerEnv) (msgs : List CodeMessage) (st : RunSt) :
    RunSt × Nat × Nat × Option String × Bool :=
  let sc := checkCancel env st
  if sc.2 then (sc.1, 0, 0, none, true)
  else
    let st1 := emit sc.1 (.progress "indexing"
      ⟨"active", 0, "Creating Typeagent conversation and indexing..."⟩)
    match env.create_conv with
    | .error e => (st1, 0, 0, some e, false)
    | .ok _ =>
        let batches := chunks50 msgs
        let out := batchLoop env batches.length batches 1 0 0 st1
        match out.2.2.2.1 with
        | some e => (out.1, out.2.1, out.2.2.1, some e, false)
        | none =>
            if out.2.2.2.2 then (out.1, out.2.1, out.2.2.1, none, true)
            else
              let st2 := emit out.1 (.progress "indexing"
                ⟨"complete", 100, "✓ Indexing complete"⟩)
              (st2, out.2.1, out.2.2.1, none, false)

/-- The completion summary text of lines 329-339. -/
def summaryText (files msgs symbols semrefs : Nat) (duration : ℚ)
    (db_path : String) (failures : List (String × String)) : String :=
  "📊 Ingestion Statistics:\n\n📄 Files Processed: " ++ toString files ++
    "\n💬 Messages Created: " ++ toString msgs ++
    "\n🔤 Symbols Indexed: " ++ toString symbols ++
    "\n🔗 Semantic References: " ++ toString semrefs ++
    "\n⏱️  Duration: " ++ toString duration ++ "s" ++
    "\n💾 Database: " ++ db_path ++
    (if failures ≠ [] then
       "\n\n⚠️  Warning: " ++ toString failures.length ++ " files failed to process"
     else "")

/-- The body of `run_ingestion`'s `try` block: the staged pipeline.
The second component is the exception escaping the body, if any. -/
def run_ingestion_body (env : RunnerEnv) : RunSt × Option String :=
  let st : RunSt := ⟨[], 0, 0⟩
  if env.repo_exists = false then
    (emit st (.error ("Repository path does not exist: " ++ env.repo_path_str)
       "discovery"), none)
  else
    let st := emit st (.progress "discovery"
      ⟨"active", 0, "Scanning repository for Python files..."⟩)
    let sc := checkCancel env st
    if sc.2 then (sc.1, none)
    else
      match env.discover with
      | .error e => (sc.1, some e)
      | .ok files =>
          let st1 := emit sc.1 (.progress "discovery"
            ⟨"complete", 100,
             "✓ Found " ++ toString files.length ++ " files (" ++
               typeStr (kindCounts files) ++ ")"⟩)
          let sc1 := checkCancel env st1
          if sc1.2 then (sc1.1, none)
          else
            let st2 := emit sc1.1 (.progress "parsing"
              ⟨"active", 0, "Starting file parsing..."⟩)
            let python_files := (files.filter (fun f => f.2 = "python")).map Prod.fst
            let pout := parseLoop env python_files.length
              (python_files.map (fun p => (p, env.parse p))) 0 [] [] st2
            if pout.2.2.2 then (pout.1, none)
            else
              let st3 := emit pout.1 (.progress "parsing"
                ⟨"complete", 100,
                 "✓ Parsed " ++ toString pout.2.1.length ++ " files"⟩)
              let tout := phaseTypeAnalysis env pout.2.1 st3
              if tout.2.2 then (tout.1, none)
              else
                let mout := phaseMessages env (some env.repo_name) files
                  pout.2.1 tout.2.1 tout.1
                if mout.2.2 then (mout.1, none)
                else
                  let symbols := (pout.2.1.map
                    (fun pr => pr.2.classes.length + pr.2.functions.length)).sum
                  let iout := phaseIndexing env mout.2.1 mout.1
                  match iout.2.2.2.1 with
                  | some e => (iout.1, some e)
                  | none =>
                      if iout.2.2.2.2 then (iout.1, none)
                      else
                        let db_path := env.output_db.getD
                          (env.repo_name ++ "_codebase.db")
                        let failures := pout.2.2.1
                        let summary := summaryText files.length mout.2.1.length
                          symbols iout.2.1 env.duration db_path failures
                        let stF := emit iout.1 (.complete
                          ⟨files.length, mout.2.1.length, symbols, iout.2.1,
                           env.duration, db_path, failures⟩ summary)
                        (stF, none)

/-- Embedding of `run_ingestion`: the `try` body wrapped by the
`except Exception` handler of lines 355-357, which yields a single
`IngestionError` with the error text and the literal stage
`"unknown"`. -/
def run_ingestion (env : RunnerEnv) : RunSt :=
  match run_ingestion_body env with
  | (st, some e) => emit st (.error e "unknown")
  | (st, none) => st

/-! ## Supporting facts about `dotJoin` and `compute_module_path` -/

theorem dotJoin_concat (d : List Str) (s : Str) (hd : d ≠ []) :
    dotJoin (d ++ [s]) = dotJoin d ++ '.' :: s := by
  induction d with
  | nil => exact absurd rfl hd
  | cons x xs ih =>
      cases xs with
      | nil => rfl
      | cons y ys =>
          have hys := ih (by simp)
          simp only [List.cons_append, dotJoin, List.append_eq] at hys ⊢
          rw [hys]
          simp

/-- `compute_module_path` on a directory-plus-filename split. -/
theorem compute_module_path_concat (d : List Str) (n : Str) :
    compute_module_path (d ++ [n]) =
      (if pyStem n = "__init__".toList then
         (if d = [] then pyStem n else dotJoin d)
       else dotJoin (d ++ [pyStem n])) := by
  unfold compute_module_path
  dsimp only
  rw [List.getLastD_concat, List.dropLast_concat]
  by_cases hs : pyStem n = "__init__".toList
  · rw [if_pos hs, if_pos hs]
  · rw [if_neg hs, if_neg hs, if_neg (by simp : ¬(d ++ [pyStem n] = []))]

/-! ## Claim theorems -/

/-- C1: the source's signature rendering does not reproduce parameter
order: for `def f(a, *args, b)` (LibCST: `params = [a]`, `star_arg =
Param args`, `kwonly_params = [b]`) the rendered parameter list places
the bare `*` and the keyword-only group before `*args`, instead of the
declared order `a, *args, b`. -/
theorem C1_signature_param_order_bug :
    render_params ⟨[], ["a"], StarArg.param "args", ["b"], none⟩ =
      ["a", "*", "b", "*args"] ∧
    declared_params ⟨[], ["a"], StarArg.param "args", ["b"], none⟩ =
      ["a", "*args", "b"] ∧
    render_params ⟨[], ["a"], StarArg.param "args", ["b"], none⟩ ≠
      declared_params ⟨[], ["a"], StarArg.param "args", ["b"], none⟩ := by
  refine ⟨rfl, rfl, by decide⟩

/-- C2 counterexample: for `class C` containing method `m` containing a
nested helper `h`, the extractor attributes both `m` and `h` to `C`'s
methods, while the claim's one-level model attributes only `m`. -/
theorem C2_counterexample :
    (pyExtract [Stmt.classDef "C" [Stmt.funcDef "m" [Stmt.funcDef "h" []]]]).classes =
      [("C", ["m", "h"])] ∧
    directMethods [Stmt.funcDef "m" [Stmt.funcDef "h" []]] = ["m"] ∧
    (("C", ["m", "h"]) : ClassRec) ≠ ("C", ["m"]) := by
  refine ⟨?_, rfl, by decide⟩
  simp [pyExtract, visitStmts, modifyIdx]

/-- C2 (amended): a class's `methods` are exactly the function
definitions lexically nested inside the class with no intervening
class definition, at any function-nesting depth (so a helper nested
inside a method is attributed to the class); classes are collected in
visit order, top-level functions are those reached without crossing a
class, and both context stacks return to empty. -/
theorem C2_methods_are_methodsUnder (prog : List Stmt) :
    pyExtract prog = ⟨classesUnder prog, [], [], funcsUnder prog⟩ := by
  have h := visitStmts_spec prog ⟨[], [], [], []⟩ (by intro i hi; simp at hi)
  simpa [pyExtract] using h

/-- C3: a body of exactly 10,000 characters is stored untruncated; a
body of 10,001 or more characters is stored as its first 10,000
characters with the truncation marker appended, of length
`10000 + len(marker)`. -/
theorem C3_truncation_boundary (s : Str) :
    (s.length = 10000 → truncate_code_body s = s) ∧
    (10001 ≤ s.length →
      truncate_code_body s = s.take 10000 ++ TRUNCATION_MARKER ∧
      (truncate_code_body s).length = 10000 + TRUNCATION_MARKER.length) := by
  constructor
  · intro h
    simp [truncate_code_body, h]
  · intro h
    have hgt : s.length > 10000 := by omega
    have heq : truncate_code_body s = s.take 10000 ++ TRUNCATION_MARKER := by
      simp [truncate_code_body, hgt]
    refine ⟨heq, ?_⟩
    rw [heq, List.length_append, List.length_take, min_eq_left (by omega)]

theorem C3_truncation_boundary_witness :
    truncate_code_body (List.replicate 10000 'a') = List.replicate 10000 'a' ∧
    truncate_code_body (List.replicate 10001 'a') =
      (List.replicate 10001 'a').take 10000 ++ TRUNCATION_MARKER ∧
    (truncate_code_body (List.replicate 10001 'a')).length =
      10000 + TRUNCATION_MARKER.length :=
  ⟨(C3_truncation_boundary _).1 (by rw [List.length_replicate]),
   ((C3_truncation_boundary _).2 (by rw [List.length_replicate])).1,
   ((C3_truncation_boundary _).2 (by rw [List.length_replicate])).2⟩

/-- C5 counterexample: for a package marker directly at the repository
root the code returns the stem `__init__`, while the claim's rule
(drop the filename segment entirely) names the enclosing directory,
i.e. the empty dotted path. -/
theorem C5_counterexample :
    compute_module_path ["__init__.py".toList] = "__init__".toList ∧
    module_path_claimC5 ["__init__.py".toList] = [] ∧
    compute_module_path ["__init__.py".toList] ≠
      module_path_claimC5 ["__init__.py".toList] := by
  refine ⟨by decide, by decide, by decide⟩

/-- C5 (amended): writing the root-relative path as directory
components `d` plus filename `n`, the module path is the path with the
extension dropped and separators replaced by dots, with the filename
segment dropped for package markers — except that a package marker
directly at the repository root yields the stem `__init__` rather than
the (empty) name of the enclosing directory. -/
theorem C5_module_path (d : List Str) (n : Str) :
    (pyStem n ≠ "__init__".toList ∨ d ≠ [] →
      compute_module_path (d ++ [n]) = module_path_claimC5 (d ++ [n])) ∧
    (pyStem n = "__init__".toList ∧ d = [] →
      compute_module_path (d ++ [n]) = "__init__".toList) := by
  have hclaim : module_path_claimC5 (d ++ [n]) =
      (if pyStem n = "__init__".toList then dotJoin d
       else dotJoin (d ++ [pyStem n])) := by
    unfold module_path_claimC5
    rw [List.getLastD_concat, List.dropLast_concat]
  constructor
  · intro h
    rw [compute_module_path_concat, hclaim]
    by_cases hs : pyStem n = "__init__".toList
    · rcases h with h | h
      · exact absurd hs h
      · rw [if_pos hs, if_pos hs, if_neg h]
    · rw [if_neg hs, if_neg hs]
  · rintro ⟨hs, hd⟩
    subst hd
    rw [compute_module_path_concat, if_pos hs, if_pos rfl]
    exact hs

theorem C5_module_path_witness :
    compute_module_path (["pkg".toList] ++ ["mod.py".toList]) =
      module_path_claimC5 (["pkg".toList] ++ ["mod.py".toList]) ∧
    compute_module_path (([] : List Str) ++ ["__init__.py".toList]) =
      "__init__".toList :=
  ⟨(C5_module_path ["pkg".toList] "mod.py".toList).1 (Or.inl (by decide)),
   (C5_module_path [] "__init__.py".toList).2 ⟨by decide, rfl⟩⟩

/-- C6 counterexample: the distinct files `foo.py` and
`foo/__init__.py` receive the same module path `foo`, so module paths
are not unique per ingested file. -/
theorem C6_counterexample :
    compute_module_path ["foo.py".toList] =
      compute_module_path ["foo".toList, "__init__.py".toList] ∧
    (["foo.py".toList] : List Str) ≠ ["foo".toList, "__init__.py".toList] := by
  refine ⟨by decide, by decide⟩

/-- C6 (amended): module paths are unique only among files in the same
directory: two distinct source filenames (suffix `.py`) in the same
directory always yield distinct module paths, but distinct files in
different directories can collide (see the counterexample). -/
theorem C6_module_path_unique_same_dir (d : List Str) (n1 n2 : Str)
    (hne : n1 ≠ n2)
    (h1 : pySuffix n1 = ".py".toList) (h2 : pySuffix n2 = ".py".toList) :
    compute_module_path (d ++ [n1]) ≠ compute_module_path (d ++ [n2]) := by
  have hstem : pyStem n1 ≠ pyStem n2 := by
    intro hs
    exact hne (filename_eq_of_stem_suffix hs (h1.trans h2.symm))
  rw [compute_module_path_concat, compute_module_path_concat]
  by_cases hs1 : pyStem n1 = "__init__".toList <;>
    by_cases hs2 : pyStem n2 = "__init__".toList
  · exact absurd (hs1.trans hs2.symm) hstem
  · -- n1 is the marker, n2 is not
    rw [if_pos hs1, if_neg hs2]
    by_cases hd : d = []
    · subst hd
      rw [if_pos rfl]
      simpa [dotJoin] using hstem
    · rw [if_neg hd, dotJoin_concat d _ hd]
      intro hcon
      have hl := congrArg List.length hcon
      simp only [List.length_append, List.length_cons] at hl
      omega
  · -- n2 is the marker, n1 is not
    rw [if_neg hs1, if_pos hs2]
    by_cases hd : d = []
    · subst hd
      rw [if_pos rfl]
      simpa [dotJoin] using hstem
    · rw [if_neg hd, dotJoin_concat d _ hd]
      intro hcon
      have hl := congrArg List.length hcon
      simp only [List.length_append, List.length_cons] at hl
      omega
  · rw [if_neg hs1, if_neg hs2]
    by_cases hd : d = []
    · subst hd
      simpa [dotJoin] using hstem
    · rw [dotJoin_concat d _ hd, dotJoin_concat d _ hd]
      intro hcon
      have h3 := List.append_inj_right hcon rfl
      exact hstem (by simpa using h3)

theorem C6_module_path_unique_witness :
    compute_module_path ["pkg".toList, "a.py".toList] ≠
      compute_module_path ["pkg".toList, "b.py".toList] :=
  C6_module_path_unique_same_dir ["pkg".toList] _ _ (by decide) (by decide) (by decide)

/-- C7: discovery never returns a file whose path component list
contains a name from the fixed exclusion set or from the extra
excludes; in particular a file inside a directory named exactly as an
excluded pattern is never returned, even if it would classify as
source. -/
theorem C7_discovery_exclusion (entries : List FSEntry) (extra : List Str)
    (p : List Str) (k : String) (excl : Str)
    (hmem : (p, k) ∈ discover_files entries extra)
    (hexcl : excl ∈ DEFAULT_EXCLUDE_DIRS ∨ excl ∈ extra) :
    excl ∉ p := by
  intro hin
  unfold discover_files at hmem
  simp only [List.mem_filterMap] at hmem
  obtain ⟨e, _, heq⟩ := hmem
  by_cases hex : (DEFAULT_EXCLUDE_DIRS ++ extra).any (fun ex => decide (ex ∈ e.parts))
  · rw [if_pos hex] at heq
    exact absurd heq (by simp)
  · rw [if_neg hex] at heq
    have hp : p = e.parts := by
      by_cases hf : e.isFile
      · rw [if_neg (by simp [hf])] at heq
        simp only [Option.map_eq_some'] at heq
        obtain ⟨k', _, heq2⟩ := heq
        exact (congrArg Prod.fst heq2.symm)
      · simp [hf] at heq
    subst hp
    apply hex
    simp only [List.any_eq_true]
    refine ⟨excl, ?_, by simpa using hin⟩
    simp only [List.mem_append]
    exact hexcl

theorem C7_discovery_exclusion_witness :
    ((["src".toList, "a.py".toList] : List Str), "python") ∈
      discover_files [⟨["src".toList, "a.py".toList], true⟩] [] ∧
    ".git".toList ∉ [("src".toList : Str), "a.py".toList] :=
  ⟨by decide,
   C7_discovery_exclusion [⟨["src".toList, "a.py".toList], true⟩] []
     ["src".toList, "a.py".toList] "python" ".git".toList (by decide)
     (Or.inl (by decide))⟩

/-- C9: with a missing enrichment, message creation yields exactly the
chunks built from syntactic information alone, in the same order — the
missing analysis acts as empty type/reference fact collections and is
never an error. -/
theorem C9_missing_enrichment_is_syntactic (parsed : ParsedPython)
    (project : Option String) :
    create_entity_messages_with_jedi parsed none project =
      entity_messages_syntactic parsed := by
  have hm : ∀ cls, methodMessage parsed emptyJediAnalysis cls =
      methodChunkSyntactic parsed cls :=
    fun cls => funext (methodMessage_empty parsed cls)
  have hf : functionMessage parsed emptyJediAnalysis = functionChunkSyntactic parsed :=
    funext (functionMessage_empty parsed)
  unfold create_entity_messages_with_jedi entity_messages_syntactic
  simp [classMessage_empty, hm, hf]

/-- A `.py`-suffixed name classifies as `"python"` (first branch of the
classification chain). -/
theorem classifyFile_python {parts : List Str}
    (hpy : pySuffix (parts.getLastD []) ∈ PYTHON_EXTS) :
    classifyFile parts = some "python" := by
  unfold classifyFile
  dsimp only
  rw [if_pos hpy]

/-- C10: a discovered file whose name is in the configuration table but
whose suffix is the source extension is returned classified as
`"python"`, and every returned record for a `.py`-suffixed path has
kind `"python"` (so never `"configuration"`): the classification
tables are consulted source-extension first. -/
theorem C10_source_beats_config (entries : List FSEntry) (extra : List Str) :
    (∀ e ∈ entries, e.isFile = true →
      (∀ ex ∈ DEFAULT_EXCLUDE_DIRS ++ extra, ex ∉ e.parts) →
      e.parts.getLastD [] ∈ CONFIG_FILES →
      pySuffix (e.parts.getLastD []) ∈ PYTHON_EXTS →
      (e.parts, "python") ∈ discover_files entries extra) ∧
    (∀ p k, (p, k) ∈ discover_files entries extra →
      pySuffix (p.getLastD []) ∈ PYTHON_EXTS → k = "python") := by
  constructor
  · intro e he hf hex _ hpy
    unfold discover_files
    simp only [List.mem_filterMap]
    refine ⟨e, he, ?_⟩
    have hexf : (DEFAULT_EXCLUDE_DIRS ++ extra).any
        (fun ex => decide (ex ∈ e.parts)) = false := by
      simp only [List.any_eq_false]
      intro ex hx
      simpa using hex ex hx
    rw [if_neg (by simp [hexf]), if_neg (by simp [hf]), classifyFile_python hpy]
    rfl
  · intro p k hmem hpy
    unfold discover_files at hmem
    simp only [List.mem_filterMap] at hmem
    obtain ⟨e, _, heq⟩ := hmem
    by_cases hex : (DEFAULT_EXCLUDE_DIRS ++ extra).any (fun ex => decide (ex ∈ e.parts))
    · rw [if_pos hex] at heq
      exact absurd heq (by simp)
    · rw [if_neg hex] at heq
      by_cases hf : e.isFile
      · rw [if_neg (by simp [hf])] at heq
        simp only [Option.map_eq_some'] at heq
        obtain ⟨k', hk', heq2⟩ := heq
        have hp : p = e.parts := congrArg Prod.fst heq2.symm
        have hk : k = k' := congrArg Prod.snd heq2.symm
        subst hp
        rw [classifyFile_python hpy] at hk'
        rw [hk]
        exact (Option.some.inj hk').symm
      · simp [hf] at heq

/-! ## Error events in the orchestrator's event stream

Every event the pipeline body emits after the repository-existence
check is a progress or completion event; the only `IngestionError`
events in the source are the repository-missing yield (line 77) and
the catch-all handler (line 357).  `ErrFreeExt st st'` says the events
of `st'` extend those of `st` only by non-error events. -/

def ErrFreeExt (st st' : RunSt) : Prop :=
  ∀ ev ∈ st'.events, ev ∈ st.events ∨ ev.isErr = false

theorem ErrFreeExt.refl (st : RunSt) : ErrFreeExt st st :=
  fun _ h => Or.inl h

theorem ErrFreeExt.trans {a b c : RunSt} (h1 : ErrFreeExt a b)
    (h2 : ErrFreeExt b c) : ErrFreeExt a c := by
  intro ev hev
  rcases h2 ev hev with h | h
  · exact h1 ev h
  · exact Or.inr h

theorem ErrFreeExt.emit_ok {a st : RunSt} {ev : RunEvent}
    (h : ErrFreeExt a st) (hev : ev.isErr = false) :
    ErrFreeExt a (emit st ev) := by
  intro ev' hev'
  simp only [emit, List.mem_append, List.mem_singleton] at hev'
  rcases hev' with hev' | rfl
  · exact h ev' hev'
  · exact Or.inr hev

theorem ErrFreeExt.events_eq {a st st' : RunSt} (h : ErrFreeExt a st)
    (he : st'.events = st.events) : ErrFreeExt a st' := by
  intro ev hev
  rw [he] at hev
  exact h ev hev

/-- Extend an error-free extension by one non-error event, stated via
the event lists so record updates are transparent. -/
theorem ErrFreeExt.push_ok {a st : RunSt} (h : ErrFreeExt a st) {ev : RunEvent}
    (st' : RunSt) (he : st'.events = st.events ++ [ev])
    (hev : ev.isErr = false) : ErrFreeExt a st' := by
  intro ev' hev'
  rw [he] at hev'
  simp only [List.mem_append, List.mem_singleton] at hev'
  rcases hev' with hev' | rfl
  · exact h ev' hev'
  · exact Or.inr hev

/-- Events of a state with an empty event list extended error-free are
all non-error. -/
theorem ErrFreeExt.all_ok {c b : Nat} {st' : RunSt}
    (h : ErrFreeExt ⟨[], c, b⟩ st') :
    ∀ ev ∈ st'.events, ev.isErr = false := by
  intro ev hev
  rcases h ev hev with h | h
  · simp at h
  · exact h

/-- Error-free extension through a state-valued `if`. -/
theorem ErrFreeExt.ite_state {a : RunSt} (c : Prop) [Decidable c]
    {f g : RunSt} (h1 : ErrFreeExt a f) (h2 : ErrFreeExt a g) :
    ErrFreeExt a (if c then f else g) := by
  split
  · exact h1
  · exact h2

/-- A cancellation check leaves the event list unchanged. -/
theorem ErrFreeExt.check_state {a st : RunSt} (env : RunnerEnv)
    (h : ErrFreeExt a st) : ErrFreeExt a (checkCancel env st).1 :=
  h.events_eq rfl

/-- Bumping the batch-call counter of an emitted state leaves the
event list of the emit. -/
theorem ErrFreeExt.emit_calls {a st : RunSt} {ev : RunEvent} {n : Nat}
    (h : ErrFreeExt a st) (hev : ev.isErr = false) :
    ErrFreeExt a { emit st ev with batch_calls := n } :=
  (h.emit_ok hev).events_eq rfl

theorem parseLoop_errfree (env : RunnerEnv) (total : Nat) :
    ∀ (l : List (List Str × Option ParsedPython)) (i : Nat)
      (parsed : List (List Str × ParsedPython))
      (fails : List (String × String)) (st : RunSt),
      ErrFreeExt st (parseLoop env total l i parsed fails st).1
  | [], i, parsed, fails, st => ErrFreeExt.refl st
  | (p, r) :: rest, i, parsed, fails, st => by
      simp only [parseLoop]
      split
      · exact ErrFreeExt.events_eq (ErrFreeExt.refl st) rfl
      · refine ErrFreeExt.trans ?_ (parseLoop_errfree env total rest _ _ _ _)
        apply ErrFreeExt.ite_state
        · exact (ErrFreeExt.events_eq (ErrFreeExt.refl st) rfl).emit_ok rfl
        · exact ErrFreeExt.events_eq (ErrFreeExt.refl st) rfl

theorem jediLoop_errfree (env : RunnerEnv) (total : Nat) :
    ∀ (l : List (List Str × ParsedPython)) (i : Nat)
      (acc : List (Option JediAnalysis)) (st : RunSt),
      ErrFreeExt st (jediLoop env total l i acc st).1
  | [], i, acc, st => ErrFreeExt.refl st
  | (p, _) :: rest, i, acc, st => by
      simp only [jediLoop]
      split
      · exact ErrFreeExt.events_eq (ErrFreeExt.refl st) rfl
      · refine ErrFreeExt.trans ?_ (jediLoop_errfree env total rest _ _ _)
        apply ErrFreeExt.ite_state
        · exact (ErrFreeExt.events_eq (ErrFreeExt.refl st) rfl).emit_ok rfl
        · exact ErrFreeExt.events_eq (ErrFreeExt.refl st) rfl

theorem msgLoop_errfree (env : RunnerEnv) (project : Option String)
    (nparsed total_items : Nat) :
    ∀ (l : List ((List Str × ParsedPython) × Option JediAnalysis))
      (processed : Nat) (msgs : List CodeMessage) (st : RunSt),
      ErrFreeExt st (msgLoop env project nparsed total_items l processed msgs st).1
  | [], processed, msgs, st => ErrFreeExt.refl st
  | (pp, ja) :: rest, processed, msgs, st => by
      simp only [msgLoop]
      split
      · exact ErrFreeExt.events_eq (ErrFreeExt.refl st) rfl
      · refine ErrFreeExt.trans ?_
          (msgLoop_errfree env project nparsed total_items rest _ _ _)
        apply ErrFreeExt.ite_state
        · exact (ErrFreeExt.events_eq (ErrFreeExt.refl st) rfl).emit_ok rfl
        · exact ErrFreeExt.events_eq (ErrFreeExt.refl st) rfl

theorem textLoop_errfree (env : RunnerEnv) :
    ∀ (l : List (List Str × String)) (processed : Nat)
      (msgs : List CodeMessage) (st : RunSt),
      ErrFreeExt st (textLoop env l processed msgs st).1
  | [], processed, msgs, st => ErrFreeExt.refl st
  | (p, kind) :: rest, processed, msgs, st => by
      simp only [textLoop]
      split
      · exact ErrFreeExt.events_eq (ErrFreeExt.refl st) rfl
      · exact ErrFreeExt.events_eq (ErrFreeExt.refl st) rfl |>.trans
          (textLoop_errfree env rest _ _ _)

theorem batchLoop_errfree (env : RunnerEnv) (total_batches : Nat) :
    ∀ (l : List (List CodeMessage)) (batch_num semrefs msgs_total : Nat)
      (st : RunSt),
      ErrFreeExt st (batchLoop env total_batches l batch_num semrefs msgs_total st).1
  | [], _, _, _, st => ErrFreeExt.refl st
  | batch :: rest, batch_num, semrefs, msgs_total, st => by
      simp only [batchLoop]
      split
      · exact ErrFreeExt.events_eq (ErrFreeExt.refl st) rfl
      · split
        · refine ErrFreeExt.emit_calls ?_ rfl
          exact ErrFreeExt.check_state env (ErrFreeExt.refl st)
        · refine ErrFreeExt.trans ?_ (batchLoop_errfree env total_batches rest _ _ _ _)
          refine ErrFreeExt.emit_ok ?_ rfl
          refine ErrFreeExt.emit_calls ?_ rfl
          exact ErrFreeExt.check_state env (ErrFreeExt.refl st)

theorem phaseTypeAnalysis_errfree (env : RunnerEnv)
    (all_parsed : List (List Str × ParsedPython)) (st : RunSt) :
    ErrFreeExt st (phaseTypeAnalysis env all_parsed st).1 := by
  unfold phaseTypeAnalysis
  dsimp only
  split
  · exact ErrFreeExt.refl st
  · split
    · exact ErrFreeExt.check_state env (ErrFreeExt.refl st)
    · split
      · refine ErrFreeExt.trans ?_ (jediLoop_errfree env _ _ _ _ _)
        refine ErrFreeExt.emit_ok ?_ rfl
        exact ErrFreeExt.check_state env (ErrFreeExt.refl st)
      · refine ErrFreeExt.emit_ok ?_ rfl
        refine ErrFreeExt.trans ?_ (jediLoop_errfree env _ _ _ _ _)
        refine ErrFreeExt.emit_ok ?_ rfl
        exact ErrFreeExt.check_state env (ErrFreeExt.refl st)

theorem phaseMessages_errfree (env : RunnerEnv) (project : Option String)
    (files : List (List Str × String))
    (all_parsed : List (List Str × ParsedPython))
    (analyses : List (Option JediAnalysis)) (st : RunSt) :
    ErrFreeExt st (phaseMessages env project files all_parsed analyses st).1 := by
  unfold phaseMessages
  dsimp only
  split
  · exact ErrFreeExt.check_state env (ErrFreeExt.refl st)
  · split
    · refine ErrFreeExt.trans ?_ (msgLoop_errfree env project _ _ _ _ _ _)
      refine ErrFreeExt.emit_ok ?_ rfl
      exact ErrFreeExt.check_state env (ErrFreeExt.refl st)
    · split
      · refine ErrFreeExt.trans ?_ (textLoop_errfree env _ _ _ _)
        refine ErrFreeExt.trans ?_ (msgLoop_errfree env project _ _ _ _ _ _)
        refine ErrFreeExt.emit_ok ?_ rfl
        exact ErrFreeExt.check_state env (ErrFreeExt.refl st)
      · refine ErrFreeExt.emit_ok ?_ rfl
        refine ErrFreeExt.trans ?_ (textLoop_errfree env _ _ _ _)
        refine ErrFreeExt.trans ?_ (msgLoop_errfree env project _ _ _ _ _ _)
        refine ErrFreeExt.emit_ok ?_ rfl
        exact ErrFreeExt.check_state env (ErrFreeExt.refl st)

theorem phaseIndexing_errfree (env : RunnerEnv) (msgs : List CodeMessage)
    (st : RunSt) :
    ErrFreeExt st (phaseIndexing env msgs st).1 := by
  unfold phaseIndexing
  dsimp only
  split
  · exact ErrFreeExt.check_state env (ErrFreeExt.refl st)
  · split
    · refine ErrFreeExt.emit_ok ?_ rfl
      exact ErrFreeExt.check_state env (ErrFreeExt.refl st)
    · split
      · refine ErrFreeExt.trans ?_ (batchLoop_errfree env _ _ _ _ _ _)
        refine ErrFreeExt.emit_ok ?_ rfl
        exact ErrFreeExt.check_state env (ErrFreeExt.refl st)
      · split
        · refine ErrFreeExt.trans ?_ (batchLoop_errfree env _ _ _ _ _ _)
          refine ErrFreeExt.emit_ok ?_ rfl
          exact ErrFreeExt.check_state env (ErrFreeExt.refl st)
        · refine ErrFreeExt.emit_ok ?_ rfl
          refine ErrFreeExt.trans ?_ (batchLoop_errfree env _ _ _ _ _ _)
          refine ErrFreeExt.emit_ok ?_ rfl
          exact ErrFreeExt.check_state env (ErrFreeExt.refl st)

/-- After the repository-existence check succeeds, the pipeline body
emits only non-error events. -/
theorem run_body_events_errfree (env : RunnerEnv)
    (hrepo : env.repo_exists = true) :
    ∀ ev ∈ (run_ingestion_body env).1.events, ev.isErr = false := by
  unfold run_ingestion_body
  rw [hrepo, if_neg (by simp)]
  dsimp only
  apply ErrFreeExt.all_ok (c := 0) (b := 0)
  split
  · refine ErrFreeExt.check_state env ?_
    refine ErrFreeExt.emit_ok ?_ rfl
    exact ErrFreeExt.refl _
  · split
    · refine ErrFreeExt.check_state env ?_
      refine ErrFreeExt.emit_ok ?_ rfl
      exact ErrFreeExt.refl _
    · split
      · refine ErrFreeExt.check_state env ?_
        refine ErrFreeExt.emit_ok ?_ rfl
        refine ErrFreeExt.check_state env ?_
        refine ErrFreeExt.emit_ok ?_ rfl
        exact ErrFreeExt.refl _
      · split
        · refine ErrFreeExt.trans ?_ (parseLoop_errfree env _ _ _ _ _ _)
          refine ErrFreeExt.emit_ok ?_ rfl
          refine ErrFreeExt.check_state env ?_
          refine ErrFreeExt.emit_ok ?_ rfl
          refine ErrFreeExt.check_state env ?_
          refine ErrFreeExt.emit_ok ?_ rfl
          exact ErrFreeExt.refl _
        · split
          · refine ErrFreeExt.trans ?_ (phaseTypeAnalysis_errfree env _ _)
            refine ErrFreeExt.emit_ok ?_ rfl
            refine ErrFreeExt.trans ?_ (parseLoop_errfree env _ _ _ _ _ _)
            refine ErrFreeExt.emit_ok ?_ rfl
            refine ErrFreeExt.check_state env ?_
            refine ErrFreeExt.emit_ok ?_ rfl
            refine ErrFreeExt.check_state env ?_
            refine ErrFreeExt.emit_ok ?_ rfl
            exact ErrFreeExt.refl _
          · split
            · refine ErrFreeExt.trans ?_ (phaseMessages_errfree env _ _ _ _ _)
              refine ErrFreeExt.trans ?_ (phaseTypeAnalysis_errfree env _ _)
              refine ErrFreeExt.emit_ok ?_ rfl
              refine ErrFreeExt.trans ?_ (parseLoop_errfree env _ _ _ _ _ _)
              refine ErrFreeExt.emit_ok ?_ rfl
              refine ErrFreeExt.check_state env ?_
              refine ErrFreeExt.emit_ok ?_ rfl
              refine ErrFreeExt.check_state env ?_
              refine ErrFreeExt.emit_ok ?_ rfl
              exact ErrFreeExt.refl _
            · split
              · refine ErrFreeExt.trans ?_ (phaseIndexing_errfree env _ _)
                refine ErrFreeExt.trans ?_ (phaseMessages_errfree env _ _ _ _ _)
                refine ErrFreeExt.trans ?_ (phaseTypeAnalysis_errfree env _ _)
                refine ErrFreeExt.emit_ok ?_ rfl
                refine ErrFreeExt.trans ?_ (parseLoop_errfree env _ _ _ _ _ _)
                refine ErrFreeExt.emit_ok ?_ rfl
                refine ErrFreeExt.check_state env ?_
                refine ErrFreeExt.emit_ok ?_ rfl
                refine ErrFreeExt.check_state env ?_
                refine ErrFreeExt.emit_ok ?_ rfl
                exact ErrFreeExt.refl _
              · split
                · refine ErrFreeExt.trans ?_ (phaseIndexing_errfree env _ _)
                  refine ErrFreeExt.trans ?_ (phaseMessages_errfree env _ _ _ _ _)
                  refine ErrFreeExt.trans ?_ (phaseTypeAnalysis_errfree env _ _)
                  refine ErrFreeExt.emit_ok ?_ rfl
                  refine ErrFreeExt.trans ?_ (parseLoop_errfree env _ _ _ _ _ _)
                  refine ErrFreeExt.emit_ok ?_ rfl
                  refine ErrFreeExt.check_state env ?_
                  refine ErrFreeExt.emit_ok ?_ rfl
                  refine ErrFreeExt.check_state env ?_
                  refine ErrFreeExt.emit_ok ?_ rfl
                  exact ErrFreeExt.refl _
                · refine ErrFreeExt.emit_ok ?_ rfl
                  refine ErrFreeExt.trans ?_ (phaseIndexing_errfree env _ _)
                  refine ErrFreeExt.trans ?_ (phaseMessages_errfree env _ _ _ _ _)
                  refine ErrFreeExt.trans ?_ (phaseTypeAnalysis_errfree env _ _)
                  refine ErrFreeExt.emit_ok ?_ rfl
                  refine ErrFreeExt.trans ?_ (parseLoop_errfree env _ _ _ _ _ _)
                  refine ErrFreeExt.emit_ok ?_ rfl
                  refine ErrFreeExt.check_state env ?_
                  refine ErrFreeExt.emit_ok ?_ rfl
                  refine ErrFreeExt.check_state env ?_
                  refine ErrFreeExt.emit_ok ?_ rfl
                  exact ErrFreeExt.refl _

/-- A concrete environment in which `discover_files` raises during the
discovery stage. -/
def envDiscoverRaises : RunnerEnv :=
  { repo_exists := true
    repo_path_str := "/repo"
    repo_name := "repo"
    discover := Except.error "boom"
    parse := fun _ => none
    jedi := fun _ => none
    text_message := fun _ => none
    create_conv := Except.ok ()
    add_batch := fun _ => Except.ok (0, 0)
    cancel_at := none
    output_db := none
    duration := 0 }

/-- C4 counterexample: when `discover_files` raises during the
discovery stage, the single emitted error event carries the stage
field `"unknown"`, not the name of the stage in which the exception
occurred. -/
theorem C4_counterexample :
    (run_ingestion envDiscoverRaises).events =
      [RunEvent.progress "discovery"
         ⟨"active", 0, "Scanning repository for Python files..."⟩,
       RunEvent.error "boom" "unknown"] ∧
    ¬ eventInStage (RunEvent.error "boom" "unknown") "discovery" := by
  refine ⟨rfl, by simp [eventInStage]⟩

/-- C4 (amended): on an unrecoverable exception escaping the pipeline
body, the orchestrator emits exactly one error event — the final
event, carrying the error text, with the stage field set to the
literal `"unknown"` rather than the stage in which the exception
occurred — and halts without retrying. -/
theorem C4_single_error_event (env : RunnerEnv) (e : String)
    (h : (run_ingestion_body env).2 = some e) :
    (run_ingestion env).events =
      (run_ingestion_body env).1.events ++ [RunEvent.error e "unknown"] ∧
    ((run_ingestion env).events.filter (·.isErr)).length = 1 ∧
    (run_ingestion env).events.getLast? = some (RunEvent.error e "unknown") := by
  have hrepo : env.repo_exists = true := by
    by_cases hr : env.repo_exists
    · exact hr
    · exfalso
      have hbody : (run_ingestion_body env).2 = none := by
        unfold run_ingestion_body
        rw [if_pos (by simpa using hr)]
      rw [h] at hbody
      exact Option.noConfusion hbody
  have hpair : run_ingestion_body env = ((run_ingestion_body env).1, some e) :=
    Prod.ext rfl h
  have hrun : run_ingestion env =
      emit (run_ingestion_body env).1 (.error e "unknown") := by
    unfold run_ingestion
    rw [hpair]
  have hfree := run_body_events_errfree env hrepo
  refine ⟨by rw [hrun]; rfl, ?_, ?_⟩
  · rw [hrun]
    show (((run_ingestion_body env).1.events ++ [RunEvent.error e "unknown"]).filter
      (·.isErr)).length = 1
    rw [List.filter_append]
    have hnil : (run_ingestion_body env).1.events.filter (·.isErr) = [] := by
      rw [List.filter_eq_nil_iff]
      intro ev hev
      simp [hfree ev hev]
    rw [hnil]
    rfl
  · rw [hrun]
    show ((run_ingestion_body env).1.events ++
      [RunEvent.error e "unknown"]).getLast? = _
    rw [List.getLast?_concat]

theorem C4_single_error_event_witness :
    (run_ingestion_body envDiscoverRaises).2 = some "boom" ∧
    (run_ingestion envDiscoverRaises).events =
      (run_ingestion_body envDiscoverRaises).1.events ++
        [RunEvent.error "boom" "unknown"] ∧
    ((run_ingestion envDiscoverRaises).events.filter (·.isErr)).length = 1 ∧
    (run_ingestion envDiscoverRaises).events.getLast? =
      some (RunEvent.error "boom" "unknown") :=
  ⟨rfl, C4_single_error_event envDiscoverRaises "boom" rfl⟩

/-- C8: if the cancellation flag is observed unset at the pre-discovery
check and set at the check after discovery completes (i.e. it was set
after the Discovery stage completed and before Parsing started, in a
run whose discovery succeeded), the orchestrator terminates without
emitting any type-analysis, message-creation or indexing event and
without ever invoking the index collaborator's batch append. -/
theorem C8_cancel_before_parsing (env : RunnerEnv)
    (fs : List (List Str × String))
    (hrepo : env.repo_exists = true)
    (hdisc : env.discover = Except.ok fs)
    (hcancel : env.cancel_at = some 1) :
    (∀ ev ∈ (run_ingestion env).events,
        ¬ eventInStage ev "type_analysis" ∧
        ¬ eventInStage ev "message_creation" ∧
        ¬ eventInStage ev "indexing") ∧
    (run_ingestion env).batch_calls = 0 := by
  have hc0 : cancelSet env 0 = false := by
    simp [cancelSet, hcancel]
  have hc1 : cancelSet env 1 = true := by
    simp [cancelSet, hcancel]
  have hrun : run_ingestion env = ⟨
      [RunEvent.progress "discovery"
         ⟨"active", 0, "Scanning repository for Python files..."⟩,
       RunEvent.progress "discovery"
         ⟨"complete", 100,
          "✓ Found " ++ toString fs.length ++ " files (" ++
            typeStr (kindCounts fs) ++ ")"⟩], 2, 0⟩ := by
    unfold run_ingestion run_ingestion_body
    rw [hrepo, if_neg (by simp)]
    dsimp only
    rw [hdisc]
    dsimp only [checkCancel, emit]
    rw [hc0, hc1]
    rfl
  rw [hrun]
  constructor
  · intro ev hev
    simp only [List.mem_cons, List.not_mem_nil, or_false] at hev
    rcases hev with rfl | rfl <;> simp [eventInStage]
  · rfl

/-- A concrete environment whose cancellation flag is first observed
set at check index 1 — after discovery completes, before parsing. -/
def envCancelAfterDiscovery : RunnerEnv :=
  { repo_exists := true
    repo_path_str := "/repo"
    repo_name := "repo"
    discover := Except.ok [(["a.py".toList], "python")]
    parse := fun _ => none
    jedi := fun _ => none
    text_message := fun _ => none
    create_conv := Except.ok ()
    add_batch := fun _ => Except.ok (0, 0)
    cancel_at := some 1
    output_db := none
    duration := 0 }

theorem C8_cancel_before_parsing_witness :
    (run_ingestion envCancelAfterDiscovery).batch_calls = 0 :=
  (C8_cancel_before_parsing envCancelAfterDiscovery
    [(["a.py".toList], "python")] rfl rfl rfl).2

theorem C10_source_beats_config_witness :
    ((["setup.py".toList] : List Str), "python") ∈
      discover_files [⟨["setup.py".toList], true⟩] [] :=
  (C10_source_beats_config [⟨["setup.py".toList], true⟩] []).1
    ⟨["setup.py".toList], true⟩ (by decide) rfl (by decide) (by decide) (by decide)

end CodeLayers
